import Mathlib

/-!
Verification development for the springboard backtesting engine.

The Python sources `poloniex.py`, `data.py` and `portfolio.py` are shallowly
embedded below: pandas rows become structures of rationals, dictionaries become
functions with pointwise update, iterators become an index into the underlying
list, and the shared FIFO event queue becomes a `List` that operations append
to.  Python floats are modelled as rationals, Python ints as `Int`/`Nat`.
Definitions are translated from the source files; definitions whose doc comment
says so restate the specification text instead, for refinement comparisons.
-/

/-! ## poloniex.py — hourly trade aggregation -/

/-- One pandas `describe()` statistic tuple for a single numeric column of an
hourly trade group: count, mean, std, min, 25%, 50%, 75%, max.  Floats are
modelled as rationals. -/
structure FieldStats where
  count : ℚ
  mean : ℚ
  std : ℚ
  min : ℚ
  p25 : ℚ
  p50 : ℚ
  p75 : ℚ
  max : ℚ
deriving DecidableEq, Repr

/-- One row of `hourly_stats` / `trades_df` in `poloniex.get_trades`: the
`describe()` tuples of every numeric column of the trade frame
(`globalTradeID`, `tradeID`, `rate`, `amount`, `total` and the 0/1 buy
indicator column, named `type` in the frame). -/
structure Bar where
  globalTradeID : FieldStats
  tradeID : FieldStats
  rate : FieldStats
  amount : FieldStats
  total : FieldStats
  typeCol : FieldStats
deriving DecidableEq, Repr

/-- Pandas elementwise `row * c` on one statistic tuple. -/
def FieldStats.scaleQ (s : FieldStats) (c : ℚ) : FieldStats :=
  ⟨s.count * c, s.mean * c, s.std * c, s.min * c, s.p25 * c, s.p50 * c, s.p75 * c, s.max * c⟩

/-- Pandas elementwise `row + row` on one statistic tuple. -/
def FieldStats.addRow (s t : FieldStats) : FieldStats :=
  ⟨s.count + t.count, s.mean + t.mean, s.std + t.std, s.min + t.min,
   s.p25 + t.p25, s.p50 + t.p50, s.p75 + t.p75, s.max + t.max⟩

/-- Pandas elementwise `row / c` on one statistic tuple. -/
def FieldStats.divQ (s : FieldStats) (c : ℚ) : FieldStats :=
  ⟨s.count / c, s.mean / c, s.std / c, s.min / c, s.p25 / c, s.p50 / c, s.p75 / c, s.max / c⟩

/-- `new_row[col]['count'] = trade_count` for one column. -/
def FieldStats.setCount (s : FieldStats) (c : ℚ) : FieldStats :=
  { s with count := c }

/-- Pandas elementwise `row * c` over the whole statistics row. -/
def Bar.scaleQ (b : Bar) (c : ℚ) : Bar :=
  ⟨b.globalTradeID.scaleQ c, b.tradeID.scaleQ c, b.rate.scaleQ c,
   b.amount.scaleQ c, b.total.scaleQ c, b.typeCol.scaleQ c⟩

/-- Pandas elementwise `row + row` over the whole statistics row. -/
def Bar.addRow (a b : Bar) : Bar :=
  ⟨a.globalTradeID.addRow b.globalTradeID, a.tradeID.addRow b.tradeID,
   a.rate.addRow b.rate, a.amount.addRow b.amount, a.total.addRow b.total,
   a.typeCol.addRow b.typeCol⟩

/-- Pandas elementwise `row / c` over the whole statistics row. -/
def Bar.divQ (b : Bar) (c : ℚ) : Bar :=
  ⟨b.globalTradeID.divQ c, b.tradeID.divQ c, b.rate.divQ c,
   b.amount.divQ c, b.total.divQ c, b.typeCol.divQ c⟩

/-- The `for col in new_row.index.levels[0]: new_row[col]['count'] = trade_count`
loop: overwrite the count entry of every column with `trade_count`. -/
def Bar.setCounts (b : Bar) (c : ℚ) : Bar :=
  ⟨b.globalTradeID.setCount c, b.tradeID.setCount c, b.rate.setCount c,
   b.amount.setCount c, b.total.setCount c, b.typeCol.setCount c⟩

/-- The overlap-merge of `poloniex.get_trades` (the body of the
`if not trades_df.empty and trades_df.index.min() == hourly_stats.index.max()`
branch): `row1` is the already-accumulated boundary bucket, `row2` the newly
computed bucket with the same hour key.
`new_row = ((row1 * row1.tradeID.count) + (row2 * row2.tradeID.count)) / trade_count`,
then every column's count entry is overwritten with `trade_count`. -/
def merge_overlap_row (row1 row2 : Bar) : Bar :=
  let trade_count : ℚ := row1.tradeID.count + row2.tradeID.count
  let new_row := ((row1.scaleQ row1.tradeID.count).addRow
    (row2.scaleQ row2.tradeID.count)).divQ trade_count
  new_row.setCounts trade_count

/-- Restates the specification text: the count-weighted linear combination
`merged_stat = (stat_a * count_a + stat_b * count_b) / (count_a + count_b)`
for one statistic. -/
def spec_merged_stat (a ca b cb : ℚ) : ℚ :=
  (a * ca + b * cb) / (ca + cb)

/-- Restates the specification text for one statistic tuple: the weighted-mean
merge applied uniformly to every statistic field, including min, max and the
quartiles, with `merged.count = count_a + count_b`. -/
def spec_merge_field (ca cb : ℚ) (s t : FieldStats) : FieldStats :=
  ⟨ca + cb, spec_merged_stat s.mean ca t.mean cb, spec_merged_stat s.std ca t.std cb,
   spec_merged_stat s.min ca t.min cb, spec_merged_stat s.p25 ca t.p25 cb,
   spec_merged_stat s.p50 ca t.p50 cb, spec_merged_stat s.p75 ca t.p75 cb,
   spec_merged_stat s.max ca t.max cb⟩

/-- Restates the specification text for a whole bucket: every field-statistic
tuple is merged by the weighted-mean rule, weighted by the trade counts of the
two buckets. -/
def spec_merge_row (row1 row2 : Bar) : Bar :=
  let ca := row1.tradeID.count
  let cb := row2.tradeID.count
  ⟨spec_merge_field ca cb row1.globalTradeID row2.globalTradeID,
   spec_merge_field ca cb row1.tradeID row2.tradeID,
   spec_merge_field ca cb row1.rate row2.rate,
   spec_merge_field ca cb row1.amount row2.amount,
   spec_merge_field ca cb row1.total row2.total,
   spec_merge_field ca cb row1.typeCol row2.typeCol⟩

/-! ## poloniex.py — the paging loop of `get_trades`

The loop state is projected onto the observables the paging logic reads:
`trades_df.tradeID['count'].sum()` (which equals the number of raw trades
fetched so far, because per-bucket counts sum to the page length and the
overlap merge preserves the count sum) and the mutable `end` bound.  The feed
is modelled as the list of pages successive requests would return; an
exhausted list stands for a feed that answers with an empty page.  The list of
`(end, page)` pairs returned alongside the final state is a ghost trace of the
requests issued; it does not influence the computation. -/

/-- A raw trade page as returned by one `returnTradeHistory` request, projected
onto the trade timestamps (`trades.index`). -/
structure Page where
  times : List Nat
deriving DecidableEq, Repr

/-- `trades.index.min()` on a (nonempty) page. -/
def minTs : List Nat → Nat
  | [] => 0
  | t :: ts => ts.foldl Nat.min t

/-- The loop guard `need_to_fetch`:
`len(t) == 0 or t.tradeID['count'].sum() % 50000 == 0`.  An empty frame has
count sum 0, so the first disjunct is `total_count = 0`. -/
def need_to_fetch (total_count : Nat) : Bool :=
  total_count == 0 || total_count % 50000 == 0

/-- The mutable state of the paging loop: the accumulated trade count and the
current `end` bound of the request window. -/
structure FetchState where
  total_count : Nat
  end_ : Nat
deriving DecidableEq, Repr

/-- The `while need_to_fetch(trades_df)` loop of `poloniex.get_trades`: request
the next page over `[start, end]`; `break` if it is empty; otherwise
accumulate it and reset `end = trades.index.min()`.  (`start` is never
modified by the loop.)  Returns the final state and the ghost trace of
requests as `(end bound used, page returned)` pairs. -/
def get_trades_loop (pages : List Page) (st : FetchState) :
    FetchState × List (Nat × List Nat) :=
  match pages with
  | [] =>
    if need_to_fetch st.total_count then (st, [(st.end_, [])]) else (st, [])
  | page :: rest =>
    if need_to_fetch st.total_count then
      if page.times.isEmpty then (st, [(st.end_, page.times)])
      else
        let r := get_trades_loop rest
          ⟨st.total_count + page.times.length, minTs page.times⟩
        (r.1, (st.end_, page.times) :: r.2)
    else (st, [])

/-- Checks that a request trace walks backward in time: the first request uses
the initial `end` bound, every later request uses the minimum timestamp of the
previous page, and only the last request may have received an empty page. -/
def walkOk (e0 : Nat) : List (Nat × List Nat) → Bool
  | [] => true
  | [(e, _)] => e == e0
  | (e, ts) :: r :: rs => e == e0 && !ts.isEmpty && walkOk (minTs ts) (r :: rs)

/-- Exceptions `get_trades` can end in.  `attributeError` is pandas refusing
`trades_df.tradeID` on a frame without that column; `emptyRangeError` is the
dedicated error named by the specification, which does not occur anywhere in
the source. -/
inductive PyError where
  | attributeError
  | emptyRangeError
deriving DecidableEq, Repr

/-- `poloniex.get_trades` around the paging loop: run the loop from an empty
frame, then the epilogue `trades_df.sort_index()`,
`trades_df['market'] = currency_pair` (both fine on an empty frame) and
`trades_df.tradeID['count'].sum()` — which raises `AttributeError` when no
page ever contributed a trade, because the empty frame has no `tradeID`
column. -/
def get_trades (pages : List Page) (end0 : Nat) :
    Except PyError (FetchState × List (Nat × List Nat)) :=
  let r := get_trades_loop pages ⟨0, end0⟩
  if r.1.total_count == 0 then Except.error PyError.attributeError
  else Except.ok r

/-! ## data.py — PoloniexDataHandler (market replay cursor)

`market_data[m]` is the full bar frame for market `m` (a list of rows);
`market_snapshots[m]`, an `iterrows()` iterator in the source, is modelled as
the index of the next row to yield, with `next` raising `StopIteration`
exactly when the index is past the end.  The event queue is the list
`events`, appended to at the back. -/

/-- One row yielded by `trades_df.iterrows()`: the hour index (`.name` on the
pandas Series) together with the statistics row. -/
structure Snapshot where
  name : Nat
  row : Bar
deriving DecidableEq, Repr

/-- An order event as constructed by `OrderEvent(market, direction,
order_quantity, price)` in `portfolio.py`. -/
structure OrderEvent where
  market : String
  direction : String
  quantity : ℤ
  price : ℚ
deriving DecidableEq, Repr

/-- Items the shared FIFO queue can hold in the modelled fragment: a payloadless
`MarketEvent`, an `OrderEvent`, or the Python `None` that `update_signal` puts
when no order was generated. -/
inductive QueueItem where
  | marketEvent
  | orderEvent (o : OrderEvent)
  | nonePut
deriving DecidableEq, Repr

/-- The state of `PoloniexDataHandler`.  `latest_market_data` is the dict
`{m: [] for m in markets}`; its key set is always exactly `markets`, so a
lookup is guarded by membership in `markets` where the source would raise
`KeyError`. -/
structure PoloniexDataHandler where
  markets : List String
  market_data : String → List Snapshot
  market_snapshots : String → Nat
  latest_market_data : String → List Snapshot
  continue_backtest : Bool
  events : List QueueItem

/-- `_get_new_snapshot`: `next(self.market_snapshots[market])[1]`, with
`none` standing for the `StopIteration` exception. -/
def _get_new_snapshot (h : PoloniexDataHandler) (market : String) : Option Snapshot :=
  (h.market_data market).get? (h.market_snapshots market)

/-- The Python slice `l[-N:]`: the last `N` elements for `N ≥ 1`, and the whole
list for `N = 0` (since `l[-0:]` is `l[0:]`). -/
def lastN (l : List Snapshot) (N : Nat) : List Snapshot :=
  if N = 0 then l else l.drop (l.length - N)

/-- `get_latest_market_data`: slice the revealed list with `[-N:]` and return
its first element, `None` if the slice is empty; on a market outside the dict's
key set (= `markets`), catch the `KeyError`, print a diagnostic and fall off
the function returning `None`. -/
def get_latest_market_data (h : PoloniexDataHandler) (market : String) (N : Nat) :
    Option Snapshot :=
  if market ∈ h.markets then
    match lastN (h.latest_market_data market) N with
    | [] => none
    | s :: _ => some s
  else none

/-- One iteration of the `for m in self.markets` loop of `update_market_data`:
on `StopIteration` set `continue_backtest = False`, otherwise append the
pulled snapshot to that market's revealed list and advance its iterator. -/
def update_market_step (st : PoloniexDataHandler) (m : String) : PoloniexDataHandler :=
  match _get_new_snapshot st m with
  | none => { st with continue_backtest := false }
  | some s =>
    { st with
      latest_market_data := fun x =>
        if x = m then st.latest_market_data x ++ [s] else st.latest_market_data x,
      market_snapshots := fun x =>
        if x = m then st.market_snapshots x + 1 else st.market_snapshots x }

/-- `update_market_data`: attempt every market in order, then unconditionally
`self.events.put(MarketEvent())`. -/
def update_market_data (h : PoloniexDataHandler) : PoloniexDataHandler :=
  let h2 := h.markets.foldl update_market_step h
  { h2 with events := h2.events ++ [QueueItem.marketEvent] }

/-! ## portfolio.py — NaivePortfolio

Python dicts become functions; the per-market key sets of
`current_positions` / `current_holdings` are total functions here (the source
would raise `KeyError` outside `markets`; every claim below only exercises
known markets).  The Python attribute `type` of events is spelled `etype`
(`type` is reserved in Lean). -/

/-- A signal event as consumed by `generate_naive_order`. -/
structure SignalEvent where
  etype : String
  market : String
  signal_type : String
  strength : ℚ
  market_snapshot : Snapshot
deriving DecidableEq, Repr

/-- A fill event as consumed by `update_fill`. -/
structure FillEvent where
  etype : String
  market : String
  direction : String
  quantity : ℤ
  price : ℚ
  commission : ℚ
deriving DecidableEq, Repr

/-- The `current_holdings` dict: per-market keys plus `cash`, `commission`
and `total`. -/
structure CurrentHoldings where
  value : String → ℚ
  cash : ℚ
  commission : ℚ
  total : ℚ

/-- One row of `all_positions`: the per-market entries actually written (the
dict built by `update_timeindex` starts empty) plus an optional `datetime`
key. -/
structure PositionsRow where
  positions : String → Option ℤ
  datetime : Option Nat

/-- One row of `all_holdings`: optional per-market entries (present only in the
synthetic initial row), `cash`, `commission`, `total` and an optional
`datetime` key. -/
structure HoldingsRow where
  value : String → Option ℚ
  cash : ℚ
  commission : ℚ
  total : ℚ
  datetime : Option Nat

/-- The state of `NaivePortfolio`.  `events` models `self.events`; in the
running program it is the same queue object the data handler holds. -/
structure NaivePortfolio where
  market_data : PoloniexDataHandler
  events : List QueueItem
  start_date : Nat
  initial_capital : ℚ
  all_positions : List PositionsRow
  current_positions : String → ℤ
  all_holdings : List HoldingsRow
  current_holdings : CurrentHoldings

/-- `self.markets = self.market_data.markets`. -/
def NaivePortfolio.markets (p : NaivePortfolio) : List String :=
  p.market_data.markets

/-- `construct_all_positions`: one synthetic initial row, all configured
markets at position 0, timestamped `start_date`. -/
def construct_all_positions (markets : List String) (start_date : Nat) :
    List PositionsRow :=
  [⟨fun s => if s ∈ markets then some 0 else none, some start_date⟩]

/-- `construct_all_holdings`: one synthetic initial row, all configured markets
at value 0, cash and total at `initial_capital`, zero commission. -/
def construct_all_holdings (markets : List String) (start_date : Nat)
    (initial_capital : ℚ) : List HoldingsRow :=
  [⟨fun s => if s ∈ markets then some 0 else none,
    initial_capital, 0, initial_capital, some start_date⟩]

/-- `construct_current_holdings`. -/
def construct_current_holdings (initial_capital : ℚ) : CurrentHoldings :=
  ⟨fun _ => 0, initial_capital, 0, initial_capital⟩

/-- `NaivePortfolio.__init__`.  When `start_date` is `None` the source reads
`market_data.market_data[first_market].index[0]`; an out-of-range read would
raise `IndexError`, rendered here as the irrelevant default 0. -/
def NaivePortfolio.construct (market_data : PoloniexDataHandler)
    (events : List QueueItem) (start_date : Option Nat) (initial_capital : ℚ) :
    NaivePortfolio :=
  let sd := match start_date with
    | some d => d
    | none =>
      (((market_data.market_data (market_data.markets.head?.getD "")).head?.map
        Snapshot.name).getD 0)
  { market_data := market_data
    events := events
    start_date := sd
    initial_capital := initial_capital
    all_positions := construct_all_positions market_data.markets sd
    current_positions := fun _ => 0
    all_holdings := construct_all_holdings market_data.markets sd initial_capital
    current_holdings := construct_current_holdings initial_capital }

/-- `update_timeindex`: build a fresh positions dict and holdings dict
(`total` starts from **cash**), fill them from the markets that have a latest
snapshot, then append exactly one row to each history list.  The source's
`event` parameter is unused and omitted. -/
def update_timeindex (p : NaivePortfolio) : NaivePortfolio :=
  let init : PositionsRow × HoldingsRow :=
    (⟨fun _ => none, none⟩,
     ⟨fun _ => none, p.current_holdings.cash, p.current_holdings.commission,
      p.current_holdings.cash, none⟩)
  let rows := p.markets.foldl (fun (acc : PositionsRow × HoldingsRow) market =>
    match get_latest_market_data p.market_data market 1 with
    | none => acc
    | some snapshot =>
      (⟨fun s => if s = market then some (p.current_positions market)
                 else acc.1.positions s,
        some snapshot.name⟩,
       { acc.2 with
          datetime := some snapshot.name,
          total := acc.2.total +
            (p.current_positions market : ℚ) * snapshot.row.rate.mean })) init
  { p with
    all_positions := p.all_positions ++ [rows.1],
    all_holdings := p.all_holdings ++ [rows.2] }

/-- The fill-direction indicator computed at the top of both fill updaters:
`+1` for `'BUY'`, `-1` for `'SELL'`, `0` otherwise. -/
def fill_dir (fill : FillEvent) : ℤ :=
  if fill.direction = "BUY" then 1
  else if fill.direction = "SELL" then -1
  else 0

/-- `update_positions_from_fill`:
`current_positions[fill.market] += fill_dir * fill.quantity`. -/
def update_positions_from_fill (p : NaivePortfolio) (fill : FillEvent) :
    NaivePortfolio :=
  { p with current_positions := fun s =>
      if s = fill.market then p.current_positions s + fill_dir fill * fill.quantity
      else p.current_positions s }

/-- `update_holdings_from_fill`: `cost = fill_dir * fill.price * fill.quantity`;
the market's value grows by `cost`, commission accrues, and
`cash`/`total` shrink by `cost + commission`. -/
def update_holdings_from_fill (p : NaivePortfolio) (fill : FillEvent) :
    NaivePortfolio :=
  let cost : ℚ := (fill_dir fill : ℚ) * fill.price * (fill.quantity : ℚ)
  { p with current_holdings :=
    { value := fun s =>
        if s = fill.market then p.current_holdings.value s + cost
        else p.current_holdings.value s,
      commission := p.current_holdings.commission + fill.commission,
      cash := p.current_holdings.cash - (cost + fill.commission),
      total := p.current_holdings.total - (cost + fill.commission) } }

/-- `update_fill`: on a `'FILL'` event update positions then holdings. -/
def update_fill (p : NaivePortfolio) (event : FillEvent) : NaivePortfolio :=
  if event.etype = "FILL" then
    update_holdings_from_fill (update_positions_from_fill p event) event
  else p

/-- `fills.foldl update_fill p`: apply a sequence of fill events in order. -/
def apply_fills (p : NaivePortfolio) (fills : List FillEvent) : NaivePortfolio :=
  fills.foldl update_fill p

/-- `generate_naive_order`: the order-sizing logic, returning `none` where the
source falls off the end of the function. -/
def generate_naive_order (p : NaivePortfolio) (signal : SignalEvent) :
    Option OrderEvent :=
  let market := signal.market
  let strength := signal.strength
  let price := signal.market_snapshot.row.rate.mean
  let mkt_quantity : ℤ := ⌊(100 : ℚ) * strength⌋
  let cur_quantity := p.current_positions market
  if signal.signal_type = "LONG" ∧ cur_quantity = 0 then
    some ⟨market, "BUY", mkt_quantity, price⟩
  else if signal.signal_type = "SHORT" ∧ cur_quantity = 0 then
    some ⟨market, "SELL", mkt_quantity, price⟩
  else if signal.signal_type = "SHORT" ∧ cur_quantity > 0 then
    some ⟨market, "SELL", 2 * |cur_quantity|, price⟩
  else if signal.signal_type = "LONG" ∧ cur_quantity < 0 then
    some ⟨market, "BUY", 2 * |cur_quantity|, price⟩
  else none

/-- `update_signal`: on a `'SIGNAL'` event, generate an order (possibly `None`)
and put it — whatever it is — on the shared queue. -/
def update_signal (p : NaivePortfolio) (event : SignalEvent) : NaivePortfolio :=
  if event.etype = "SIGNAL" then
    { p with events := p.events ++
        [match generate_naive_order p event with
         | some o => QueueItem.orderEvent o
         | none => QueueItem.nonePut] }
  else p

/-- Restates the specification's order-sizing transition table on
`(sign of current position, signal_type)`, with base unit size
`floor(100 * strength)`; rows not listed by the table (same-direction signals,
`EXIT`) produce no order. -/
def spec_order_table (signal_type : String) (cur : ℤ) (strength : ℚ) :
    Option (String × ℤ) :=
  if signal_type = "LONG" then
    if cur = 0 then some ("BUY", ⌊(100 : ℚ) * strength⌋)
    else if cur < 0 then some ("BUY", 2 * |cur|)
    else none
  else if signal_type = "SHORT" then
    if cur = 0 then some ("SELL", ⌊(100 : ℚ) * strength⌋)
    else if cur > 0 then some ("SELL", 2 * |cur|)
    else none
  else none

/-! ## Concrete fixtures used by the scenario conjuncts, counterexamples and
witnesses -/

/-- A statistic tuple with count `c` and every other statistic equal to `v`. -/
def constStats (c v : ℚ) : FieldStats := ⟨c, v, v, v, v, v, v, v⟩

/-- A boundary sub-bucket of 60 trades whose rate column has mean 100. -/
def exBar60 : Bar :=
  ⟨constStats 60 1, constStats 60 2, constStats 60 100,
   constStats 60 3, constStats 60 4, constStats 60 5⟩

/-- A boundary sub-bucket of 40 trades whose rate column has mean 200. -/
def exBar40 : Bar :=
  ⟨constStats 40 6, constStats 40 7, constStats 40 200,
   constStats 40 8, constStats 40 9, constStats 40 10⟩

/-- A snapshot whose rate column has mean 100. -/
def snapA : Snapshot := ⟨1, exBar60⟩

/-- A later snapshot, distinct from `snapA`. -/
def snapB : Snapshot := ⟨2, exBar40⟩

/-- A data handler over the single market `"X"` with no revealed data. -/
def dhX : PoloniexDataHandler :=
  ⟨["X"], fun _ => [], fun _ => 0, fun _ => [], true, []⟩

/-- A freshly constructed portfolio over `dhX` with capital 100000. -/
def pX : NaivePortfolio := NaivePortfolio.construct dhX [] (some 0) 100000

/-- `pX` with an existing long position of 100 units of `"X"`. -/
def pLong : NaivePortfolio :=
  { pX with current_positions := fun s => if s = "X" then 100 else 0 }

/-- Signal(SHORT, strength=0.5) on market `"X"` at a bar with rate mean 100. -/
def sigShortHalf : SignalEvent := ⟨"SIGNAL", "X", "SHORT", 1/2, snapA⟩

/-- Fill(BUY, 100, price=10, commission=1) on market `"X"`. -/
def fillBuy100 : FillEvent := ⟨"FILL", "X", "BUY", 100, 10, 1⟩

/-! ## C1 — the overlap merge rule -/

/-- C1: the overlap merge of `get_trades` is the count-weighted linear
combination `merged_stat = (stat_a * count_a + stat_b * count_b) /
(count_a + count_b)` applied uniformly to every statistic field (min, max and
quartiles included), the merged count is `count_a + count_b` in every column,
and sub-buckets with counts 60/40 and rate means 100/200 merge to rate mean
140 with count 100. -/
theorem merge_overlap_weighted :
    (∀ row1 row2 : Bar, merge_overlap_row row1 row2 = spec_merge_row row1 row2)
  ∧ (∀ row1 row2 : Bar,
      (merge_overlap_row row1 row2).tradeID.count
        = row1.tradeID.count + row2.tradeID.count
      ∧ (merge_overlap_row row1 row2).rate.count
        = row1.tradeID.count + row2.tradeID.count)
  ∧ (merge_overlap_row exBar60 exBar40).rate.mean = 140
  ∧ (merge_overlap_row exBar60 exBar40).tradeID.count = 100 :=
  ⟨fun _ _ => rfl, fun _ _ => ⟨rfl, rfl⟩,
   by norm_num [merge_overlap_row, exBar60, exBar40, constStats, Bar.scaleQ,
     FieldStats.scaleQ, Bar.addRow, FieldStats.addRow, Bar.divQ,
     FieldStats.divQ, Bar.setCounts, FieldStats.setCount],
   by norm_num [merge_overlap_row, exBar60, exBar40, constStats, Bar.scaleQ,
     FieldStats.scaleQ, Bar.addRow, FieldStats.addRow, Bar.divQ,
     FieldStats.divQ, Bar.setCounts, FieldStats.setCount]⟩

/-! ## C2 — the order-sizing state machine -/

/-- C2: `generate_naive_order` realises the specification's order-sizing
transition table on the sign of the current position — FLAT yields a
BUY/SELL of `floor(100 * strength)` units, an opposing signal while
positioned yields a reversing order of twice the absolute position, and
same-direction or EXIT signals yield no order; in particular a long position
of 100 with Signal(SHORT, strength=0.5) yields Order(SELL, 200). -/
theorem generate_naive_order_follows_table :
    (∀ (p : NaivePortfolio) (s : SignalEvent),
      generate_naive_order p s =
        (spec_order_table s.signal_type (p.current_positions s.market)
          s.strength).map
          (fun dq => ⟨s.market, dq.1, dq.2, s.market_snapshot.row.rate.mean⟩))
  ∧ generate_naive_order pLong sigShortHalf = some ⟨"X", "SELL", 200, 100⟩ := by
  constructor
  · intro p s
    simp only [generate_naive_order, spec_order_table]
    split_ifs <;> simp_all
  · decide

/-! ## C3 — fills and cash conservation -/

/-- Cash evolution over any sequence of `'FILL'` events: each fill subtracts
its cost plus its commission. -/
theorem apply_fills_cash (fills : List FillEvent) (p : NaivePortfolio)
    (hf : ∀ f ∈ fills, f.etype = "FILL") :
    (apply_fills p fills).current_holdings.cash =
      p.current_holdings.cash -
        (fills.map (fun f =>
          (fill_dir f : ℚ) * f.price * (f.quantity : ℚ) + f.commission)).sum := by
  induction fills generalizing p with
  | nil => simp [apply_fills]
  | cons f fs ih =>
    have hist : apply_fills p (f :: fs) = apply_fills (update_fill p f) fs := rfl
    rw [hist, ih (update_fill p f) (fun g hg => hf g (List.mem_cons_of_mem f hg))]
    have hft := hf f (List.mem_cons_self f fs)
    simp only [update_fill, hft, if_pos, update_holdings_from_fill,
      update_positions_from_fill, List.map_cons, List.sum_cons]
    ring

/-- C3: a BUY fill has direction `+1` and a SELL fill `-1`; applying a fill
adds `dir * quantity` to the market's position and subtracts
`dir * price * quantity + commission` from cash; over any zero-commission
fill sequence, final cash is the initial cash minus the summed signed costs;
and from capital 100000, Fill(BUY, 100, price=10, commission=1) leaves
position 100 and cash 98999. -/
theorem update_fill_ledger (p : NaivePortfolio) (f : FillEvent)
    (ht : f.etype = "FILL") :
    ((f.direction = "BUY" → fill_dir f = 1)
      ∧ (f.direction = "SELL" → fill_dir f = -1))
  ∧ (update_fill p f).current_positions f.market
      = p.current_positions f.market + fill_dir f * f.quantity
  ∧ (update_fill p f).current_holdings.cash
      = p.current_holdings.cash
        - ((fill_dir f : ℚ) * f.price * (f.quantity : ℚ) + f.commission)
  ∧ (∀ (q : NaivePortfolio) (fills : List FillEvent),
      (∀ g ∈ fills, g.etype = "FILL" ∧ g.commission = 0) →
      (apply_fills q fills).current_holdings.cash =
        q.current_holdings.cash -
          (fills.map (fun g =>
            (fill_dir g : ℚ) * g.price * (g.quantity : ℚ))).sum)
  ∧ ((apply_fills pX [fillBuy100]).current_positions "X" = 100
      ∧ (apply_fills pX [fillBuy100]).current_holdings.cash = 98999) := by
  refine ⟨⟨fun hb => by simp [fill_dir, hb], fun hs => by simp [fill_dir, hs]⟩,
    ?_, ?_, ?_, by decide,
    by norm_num [apply_fills, update_fill, update_holdings_from_fill,
      update_positions_from_fill, fill_dir, fillBuy100, pX,
      NaivePortfolio.construct, construct_current_holdings]⟩
  · simp [update_fill, ht, update_holdings_from_fill, update_positions_from_fill]
  · simp [update_fill, ht, update_holdings_from_fill, update_positions_from_fill]
  · intro q fills hg
    rw [apply_fills_cash fills q (fun g hgm => (hg g hgm).1)]
    have : (fills.map (fun g =>
        (fill_dir g : ℚ) * g.price * (g.quantity : ℚ) + g.commission)) =
        (fills.map (fun g => (fill_dir g : ℚ) * g.price * (g.quantity : ℚ))) := by
      apply List.map_congr_left
      intro g hgm
      rw [(hg g hgm).2]
      ring
    rw [this]

/-- Witness for C3 at the specification's scenario input. -/
theorem update_fill_ledger_witness :
    fillBuy100.etype = "FILL"
  ∧ ((apply_fills pX [fillBuy100]).current_positions "X" = 100
      ∧ (apply_fills pX [fillBuy100]).current_holdings.cash = 98999) :=
  ⟨rfl, (update_fill_ledger pX fillBuy100 rfl).2.2.2.2⟩

/-! ## C4 — ledger row-count invariant -/

/-- C4: both history lists start with exactly one synthetic row, each call to
`update_timeindex` appends exactly one row to each (however many markets
ticked), and after `N` calls both have length `N + 1`. -/
theorem ledger_row_count :
    (∀ md ev sd cap,
      (NaivePortfolio.construct md ev sd cap).all_positions.length = 1
      ∧ (NaivePortfolio.construct md ev sd cap).all_holdings.length = 1)
  ∧ (∀ p : NaivePortfolio,
      (update_timeindex p).all_positions.length = p.all_positions.length + 1
      ∧ (update_timeindex p).all_holdings.length = p.all_holdings.length + 1)
  ∧ (∀ md ev sd cap N,
      (update_timeindex^[N]
        (NaivePortfolio.construct md ev sd cap)).all_positions.length = N + 1
      ∧ (update_timeindex^[N]
        (NaivePortfolio.construct md ev sd cap)).all_holdings.length = N + 1) := by
  have hstep : ∀ p : NaivePortfolio,
      (update_timeindex p).all_positions.length = p.all_positions.length + 1
      ∧ (update_timeindex p).all_holdings.length = p.all_holdings.length + 1 := by
    intro p
    constructor <;> simp [update_timeindex]
  refine ⟨fun md ev sd cap => ⟨rfl, rfl⟩, hstep, ?_⟩
  intro md ev sd cap N
  induction N with
  | zero => exact ⟨rfl, rfl⟩
  | succ n ih =>
    rw [Function.iterate_succ_apply']
    exact ⟨by rw [(hstep _).1, ih.1], by rw [(hstep _).2, ih.2]⟩

/-! ## C5 — fills with an unrecognized direction -/

/-- A fill whose direction is outside BUY/SELL but which carries a
commission. -/
def fillHold : FillEvent := ⟨"FILL", "X", "HOLD", 5, 10, 1⟩

/-- C5 counterexample: a Fill with direction `"HOLD"` and commission 1 is not
a no-op — cash drops by the commission and the commission paid grows, so the
claim that positions, cash, commission and total are all left unchanged is
false. -/
theorem unknown_direction_not_noop :
    (update_fill pX fillHold).current_holdings.cash
      ≠ pX.current_holdings.cash
  ∧ (update_fill pX fillHold).current_holdings.commission
      ≠ pX.current_holdings.commission
  ∧ (update_fill pX fillHold).current_holdings.cash = 99999 := by
  have h1 : ¬(("HOLD" : String) = "BUY") := by decide
  have h2 : ¬(("HOLD" : String) = "SELL") := by decide
  refine ⟨?_, ?_, ?_⟩ <;>
    norm_num [update_fill, update_holdings_from_fill,
      update_positions_from_fill, fill_dir, fillHold, pX,
      NaivePortfolio.construct, construct_current_holdings, h1, h2]

/-- C5 amended: a `'FILL'` event whose direction is outside BUY/SELL gets
`dir = 0`, so positions and per-market holdings are untouched and no trade
cost is incurred, but the commission is still accrued and subtracted from
cash and total; the fill is a full no-op exactly when its commission is
zero. -/
theorem unknown_direction_effect (p : NaivePortfolio) (f : FillEvent)
    (ht : f.etype = "FILL") (hb : f.direction ≠ "BUY")
    (hs : f.direction ≠ "SELL") :
    (∀ m, (update_fill p f).current_positions m = p.current_positions m)
  ∧ (∀ m, (update_fill p f).current_holdings.value m
      = p.current_holdings.value m)
  ∧ (update_fill p f).current_holdings.commission
      = p.current_holdings.commission + f.commission
  ∧ (update_fill p f).current_holdings.cash
      = p.current_holdings.cash - f.commission
  ∧ (update_fill p f).current_holdings.total
      = p.current_holdings.total - f.commission
  ∧ (f.commission = 0 →
      (∀ m, (update_fill p f).current_positions m = p.current_positions m)
      ∧ (update_fill p f).current_holdings.cash = p.current_holdings.cash
      ∧ (update_fill p f).current_holdings.commission
          = p.current_holdings.commission
      ∧ (update_fill p f).current_holdings.total
          = p.current_holdings.total) := by
  have hd : fill_dir f = 0 := by simp [fill_dir, hb, hs]
  have hpos : ∀ m, (update_fill p f).current_positions m
      = p.current_positions m := by
    intro m
    by_cases hm : m = f.market <;>
      simp [update_fill, ht, update_holdings_from_fill,
        update_positions_from_fill, hd, hm]
  have hval : ∀ m, (update_fill p f).current_holdings.value m
      = p.current_holdings.value m := by
    intro m
    by_cases hm : m = f.market <;>
      simp [update_fill, ht, update_holdings_from_fill,
        update_positions_from_fill, hd, hm]
  have hcomm : (update_fill p f).current_holdings.commission
      = p.current_holdings.commission + f.commission := by
    simp [update_fill, ht, update_holdings_from_fill,
      update_positions_from_fill]
  have hcash : (update_fill p f).current_holdings.cash
      = p.current_holdings.cash - f.commission := by
    simp [update_fill, ht, update_holdings_from_fill,
      update_positions_from_fill, hd]
  have htot : (update_fill p f).current_holdings.total
      = p.current_holdings.total - f.commission := by
    simp [update_fill, ht, update_holdings_from_fill,
      update_positions_from_fill, hd]
  refine ⟨hpos, hval, hcomm, hcash, htot, fun hc => ⟨hpos, ?_, ?_, ?_⟩⟩
  · rw [hcash, hc, sub_zero]
  · rw [hcomm, hc, add_zero]
  · rw [htot, hc, sub_zero]

/-- A zero-commission fill with an unrecognized direction. -/
def fillHold0 : FillEvent := ⟨"FILL", "X", "HOLD", 5, 10, 0⟩

/-- Witness for the amended C5 at a concrete unrecognized-direction fill. -/
theorem unknown_direction_effect_witness :
    fillHold0.etype = "FILL"
  ∧ fillHold0.direction ≠ "BUY"
  ∧ fillHold0.direction ≠ "SELL"
  ∧ (update_fill pX fillHold0).current_holdings.cash
      = pX.current_holdings.cash - fillHold0.commission :=
  ⟨rfl, by decide, by decide,
   (unknown_direction_effect pX fillHold0 rfl (by decide) (by decide)).2.2.2.1⟩

/-! ## C10 — update_signal always enqueues exactly one item -/

/-- C10: every `'SIGNAL'` event makes `update_signal` put exactly one item on
the queue, and when the sizing table produces no order that item is the
Python `None`. -/
theorem update_signal_queue (p : NaivePortfolio) (e : SignalEvent)
    (ht : e.etype = "SIGNAL") :
    (update_signal p e).events.length = p.events.length + 1
  ∧ (generate_naive_order p e = none →
      (update_signal p e).events = p.events ++ [QueueItem.nonePut]) := by
  constructor
  · cases h : generate_naive_order p e <;> simp [update_signal, ht, h]
  · intro h
    simp [update_signal, ht, h]

/-- Signal(LONG) on market `"X"` while already long: the table yields no
order. -/
def sigLongWhileLong : SignalEvent := ⟨"SIGNAL", "X", "LONG", 1, snapA⟩

/-- Witness for C10: a LONG signal while already long enqueues a single
`None`. -/
theorem update_signal_queue_witness :
    sigLongWhileLong.etype = "SIGNAL"
  ∧ (update_signal pLong sigLongWhileLong).events
      = pLong.events ++ [QueueItem.nonePut] :=
  ⟨rfl, (update_signal_queue pLong sigLongWhileLong rfl).2 (by decide)⟩

/-! ## C6 — the latest-bar query -/

/-- A handler over market `"X"` with two revealed snapshots, `snapB` the most
recent. -/
def dhTwo : PoloniexDataHandler :=
  ⟨["X"], fun _ => [], fun _ => 0,
   fun m => if m = "X" then [snapA, snapB] else [], true, []⟩

/-- C6 counterexample: with two revealed bars, the query at `N = 2` returns
the *first* of the last two bars — not the most recently revealed one — so
the claim that every `N ≥ 1` returns the most recent bar is false. -/
theorem latest_bar_not_latest_for_N2 :
    get_latest_market_data dhTwo "X" 2 = some snapA
  ∧ (dhTwo.latest_market_data "X").getLast? = some snapB
  ∧ snapA ≠ snapB := by
  refine ⟨by decide, by decide, by decide⟩

/-- `get_latest_market_data` on a known market is the head of the `[-N:]`
slice. -/
theorem get_latest_eq_head (h : PoloniexDataHandler) (m : String) (N : Nat)
    (hm : m ∈ h.markets) :
    get_latest_market_data h m N = (lastN (h.latest_market_data m) N).head? := by
  simp only [get_latest_market_data, if_pos hm]
  cases lastN (h.latest_market_data m) N <;> simp

/-- C6 amended: for a known market and `N ≥ 1` the query returns the single
bar `min(N, len)` positions from the end of the revealed list — the most
recently revealed bar exactly when `N = 1` (the default) — and for a market
outside the configured set it returns `none` instead of raising. -/
theorem get_latest_market_data_spec (h : PoloniexDataHandler) (m m' : String)
    (N : Nat) (hN : 1 ≤ N) (hm : m ∈ h.markets) (hm' : m' ∉ h.markets) :
    get_latest_market_data h m N
      = (h.latest_market_data m)[(h.latest_market_data m).length - N]?
  ∧ get_latest_market_data h m 1 = (h.latest_market_data m).getLast?
  ∧ get_latest_market_data h m' N = none := by
  refine ⟨?_, ?_, by simp [get_latest_market_data, hm']⟩
  · rw [get_latest_eq_head h m N hm, lastN, if_neg (by omega), List.head?_drop]
  · rw [get_latest_eq_head h m 1 hm, lastN, if_neg (by omega), List.head?_drop,
      List.getLast?_eq_getElem?]

/-- Witness for the amended C6: at `N = 1` the query on `dhTwo` does return
the most recently revealed bar. -/
theorem get_latest_market_data_spec_witness :
    get_latest_market_data dhTwo "X" 1 = (dhTwo.latest_market_data "X").getLast? :=
  (get_latest_market_data_spec dhTwo "X" "Y" 1 (by decide) (by decide)
    (by decide)).2.1

/-! ## C7 — advance_all / update_market_data -/

/-- `update_market_step` never changes the market list, the full data set or
the event queue. -/
theorem update_market_step_frame (st : PoloniexDataHandler) (m : String) :
    (update_market_step st m).markets = st.markets
  ∧ (update_market_step st m).market_data = st.market_data
  ∧ (update_market_step st m).events = st.events := by
  simp only [update_market_step]
  cases _get_new_snapshot st m <;> exact ⟨rfl, rfl, rfl⟩

/-- `update_market_step` touches only the processed market's iterator and
revealed list. -/
theorem update_market_step_other (st : PoloniexDataHandler) (m x : String)
    (hx : x ≠ m) :
    (update_market_step st m).market_snapshots x = st.market_snapshots x
  ∧ (update_market_step st m).latest_market_data x = st.latest_market_data x := by
  simp only [update_market_step]
  cases _get_new_snapshot st m <;> simp [hx]

/-- `update_market_step` never resurrects a cleared `continue_backtest`. -/
theorem update_market_step_mono (st : PoloniexDataHandler) (m : String) :
    (update_market_step st m).continue_backtest = true →
      st.continue_backtest = true := by
  simp only [update_market_step]
  cases _get_new_snapshot st m with
  | none => intro hfalse; cases hfalse
  | some s => intro hs; exact hs

/-- The market loop never changes the market list, the full data set or the
event queue. -/
theorem foldl_step_frame (l : List String) (st : PoloniexDataHandler) :
    (l.foldl update_market_step st).markets = st.markets
  ∧ (l.foldl update_market_step st).market_data = st.market_data
  ∧ (l.foldl update_market_step st).events = st.events := by
  induction l generalizing st with
  | nil => exact ⟨rfl, rfl, rfl⟩
  | cons a l' ih =>
    rw [List.foldl_cons]
    have hstep := update_market_step_frame st a
    have hrest := ih (update_market_step st a)
    exact ⟨hrest.1.trans hstep.1, hrest.2.1.trans hstep.2.1,
      hrest.2.2.trans hstep.2.2⟩

/-- The market loop leaves the iterator and revealed list of an unprocessed
market alone. -/
theorem foldl_step_other (l : List String) (st : PoloniexDataHandler)
    (x : String) (hx : x ∉ l) :
    (l.foldl update_market_step st).market_snapshots x = st.market_snapshots x
  ∧ (l.foldl update_market_step st).latest_market_data x
      = st.latest_market_data x := by
  induction l generalizing st with
  | nil => exact ⟨rfl, rfl⟩
  | cons a l' ih =>
    rw [List.foldl_cons]
    have hxa : x ≠ a := fun hxa => hx (hxa ▸ List.mem_cons_self a l')
    have hxl : x ∉ l' := fun hmem => hx (List.mem_cons_of_mem a hmem)
    have hstep := update_market_step_other st a x hxa
    have hrest := ih (update_market_step st a) hxl
    exact ⟨hrest.1.trans hstep.1, hrest.2.trans hstep.2⟩

/-- The market loop never resurrects a cleared `continue_backtest`. -/
theorem foldl_step_mono (l : List String) (st : PoloniexDataHandler) :
    (l.foldl update_market_step st).continue_backtest = true →
      st.continue_backtest = true := by
  induction l generalizing st with
  | nil => exact fun hs => hs
  | cons a l' ih =>
    rw [List.foldl_cons]
    exact fun hs => update_market_step_mono st a (ih _ hs)

/-- Once cleared, `continue_backtest` stays cleared through the loop. -/
theorem foldl_step_false (l : List String) (st : PoloniexDataHandler)
    (h : st.continue_backtest = false) :
    (l.foldl update_market_step st).continue_backtest = false := by
  cases hf : (l.foldl update_market_step st).continue_backtest with
  | false => rfl
  | true => rw [foldl_step_mono l st hf] at h; cases h

/-- The per-market effect of the loop: a market whose iterator yields a bar
gets it appended (whatever happens to the other markets), and a market whose
iterator is exhausted clears `continue_backtest` for good. -/
theorem foldl_step_snapshot (l : List String) (st : PoloniexDataHandler)
    (m : String) (hm : m ∈ l) :
    (∀ s, _get_new_snapshot st m = some s → l.Nodup →
      (l.foldl update_market_step st).latest_market_data m
        = st.latest_market_data m ++ [s])
  ∧ (_get_new_snapshot st m = none →
      (l.foldl update_market_step st).continue_backtest = false) := by
  induction l generalizing st with
  | nil => cases hm
  | cons a l' ih =>
    by_cases ha : m = a
    · subst ha
      constructor
      · intro s hs hnd
        have hstep : (update_market_step st m).latest_market_data m
            = st.latest_market_data m ++ [s] := by
          simp [update_market_step, hs]
        have hnotin : m ∉ l' := (List.nodup_cons.mp hnd).1
        rw [List.foldl_cons,
          (foldl_step_other l' (update_market_step st m) m hnotin).2, hstep]
      · intro hs
        have hstep : (update_market_step st m).continue_backtest = false := by
          simp [update_market_step, hs]
        rw [List.foldl_cons]
        exact foldl_step_false l' _ hstep
    · have hm' : m ∈ l' := (List.mem_cons.mp hm).resolve_left ha
      have hother := update_market_step_other st a m ha
      have hsnap : _get_new_snapshot (update_market_step st a) m
          = _get_new_snapshot st m := by
        simp only [_get_new_snapshot, (update_market_step_frame st a).2.1,
          hother.1]
      constructor
      · intro s hs hnd
        rw [List.foldl_cons,
          (ih (update_market_step st a) hm').1 s (hsnap.trans hs)
            (List.nodup_cons.mp hnd).2,
          hother.2]
      · intro hs
        rw [List.foldl_cons]
        exact (ih (update_market_step st a) hm').2 (hsnap.trans hs)

/-- C7: every call to `update_market_data` appends exactly one `MarketEvent`
to the queue after attempting every market; any market whose iterator still
yields a bar gets that bar appended to its revealed list even if another
market is exhausted; the `continue_backtest` flag never goes back from false
to true; and the call of any exhausted market leaves the flag false. -/
theorem advance_all_spec (h : PoloniexDataHandler) (hnd : h.markets.Nodup) :
    (update_market_data h).events = h.events ++ [QueueItem.marketEvent]
  ∧ (∀ m ∈ h.markets, ∀ s, _get_new_snapshot h m = some s →
      (update_market_data h).latest_market_data m
        = h.latest_market_data m ++ [s])
  ∧ ((update_market_data h).continue_backtest = true →
      h.continue_backtest = true)
  ∧ (∀ m ∈ h.markets, _get_new_snapshot h m = none →
      (update_market_data h).continue_backtest = false) := by
  refine ⟨?_, ?_, ?_, ?_⟩
  · show (h.markets.foldl update_market_step h).events ++ [QueueItem.marketEvent]
      = h.events ++ [QueueItem.marketEvent]
    rw [(foldl_step_frame h.markets h).2.2]
  · intro m hm s hs
    exact (foldl_step_snapshot h.markets h m hm).1 s hs hnd
  · intro htrue
    exact foldl_step_mono h.markets h htrue
  · intro m hm hs
    exact (foldl_step_snapshot h.markets h m hm).2 hs

/-- A handler with market `"A"` holding one unrevealed bar and market `"B"`
already exhausted. -/
def dhMixed : PoloniexDataHandler :=
  ⟨["A", "B"], fun m => if m = "A" then [snapA] else [], fun _ => 0,
   fun _ => [], true, []⟩

/-- Witness for C7: on `dhMixed`, market `"A"` still gets its bar appended
while exhausted market `"B"` clears the flag. -/
theorem advance_all_spec_witness :
    (["A", "B"] : List String).Nodup
  ∧ (update_market_data dhMixed).latest_market_data "A"
      = dhMixed.latest_market_data "A" ++ [snapA]
  ∧ (update_market_data dhMixed).continue_backtest = false :=
  ⟨by decide,
   (advance_all_spec dhMixed (by decide)).2.1 "A" (by decide) snapA (by decide),
   (advance_all_spec dhMixed (by decide)).2.2.2 "B" (by decide) (by decide)⟩

/-! ## C8 — the paging loop walks backward and its stopping condition -/

/-- A final partial page of three trades (a count that is not a multiple of
50000). -/
def partialPage : Page := ⟨[10, 7, 5]⟩

/-- C8 counterexample: after a single nonempty page of 3 trades the loop
stops — the accumulated count 3 fails `need_to_fetch` — so the most recently
fetched page at the moment fetching stops is *not* empty, refuting "fetching
stops only when the most recently fetched page is empty". -/
theorem paging_stops_after_nonempty_page :
    (get_trades_loop [partialPage] ⟨0, 100⟩).2 = [(100, [10, 7, 5])]
  ∧ ([10, 7, 5] : List Nat) ≠ []
  ∧ need_to_fetch (get_trades_loop [partialPage] ⟨0, 100⟩).1.total_count
      = false := by
  refine ⟨by decide, by decide, by decide⟩

/-- `(a :: l).getLast?` skips the head when the tail is nonempty. -/
theorem getLast_cons_ne (a : Nat × List Nat) (l : List (Nat × List Nat))
    (h : l ≠ []) : (a :: l).getLast? = l.getLast? := by
  cases l with
  | nil => cases h rfl
  | cons b l' => rfl

/-- If the loop issued no request at all, it returned its input state. -/
theorem get_trades_loop_nil_trace (pages : List Page) (st : FetchState)
    (h : (get_trades_loop pages st).2 = []) :
    (get_trades_loop pages st).1 = st := by
  cases pages with
  | nil =>
    by_cases hn : need_to_fetch st.total_count <;> simp_all [get_trades_loop]
  | cons page rest =>
    by_cases hn : need_to_fetch st.total_count
    · by_cases hpe : page.times.isEmpty <;> simp_all [get_trades_loop]
    · simp_all [get_trades_loop]

/-- C8 amended: the paging loop walks backward in time — the first request
uses the initial `end` bound and each later request uses the minimum
timestamp of the previous (necessarily nonempty) page — it issues a request
exactly when the accumulated trade count is zero or a multiple of 50000, and
whenever the final count still satisfies `need_to_fetch` the loop must have
ended on an empty page (at the final `end` bound); equivalently, the loop
can also stop right after a nonempty page, namely when the count stops being
a multiple of 50000. -/
theorem get_trades_paging (pages : List Page) (st : FetchState) :
    walkOk st.end_ (get_trades_loop pages st).2 = true
  ∧ ((get_trades_loop pages st).2 = [] ↔
      need_to_fetch st.total_count = false)
  ∧ (need_to_fetch (get_trades_loop pages st).1.total_count = true →
      (get_trades_loop pages st).2.getLast?
        = some ((get_trades_loop pages st).1.end_, [])) := by
  induction pages generalizing st with
  | nil =>
    by_cases hn : need_to_fetch st.total_count
    · refine ⟨?_, ?_, ?_⟩ <;> simp [get_trades_loop, hn, walkOk]
    · refine ⟨?_, ?_, ?_⟩ <;>
        simp_all [get_trades_loop, walkOk, Bool.not_eq_true]
  | cons page rest ih =>
    by_cases hn : need_to_fetch st.total_count
    · by_cases hpe : page.times.isEmpty
      · refine ⟨?_, ?_, ?_⟩ <;>
          simp_all [get_trades_loop, walkOk, List.isEmpty_iff,
            Bool.not_eq_true]
      · have hrec := ih ⟨st.total_count + page.times.length, minTs page.times⟩
        have hloop : get_trades_loop (page :: rest) st =
            ((get_trades_loop rest
                ⟨st.total_count + page.times.length, minTs page.times⟩).1,
             (st.end_, page.times) ::
              (get_trades_loop rest
                ⟨st.total_count + page.times.length, minTs page.times⟩).2) := by
          simp [get_trades_loop, hn, hpe]
        refine ⟨?_, ?_, ?_⟩
        · rw [hloop]
          rcases htr : (get_trades_loop rest
              ⟨st.total_count + page.times.length, minTs page.times⟩).2 with
            _ | ⟨hd, tl⟩
          · simp [walkOk]
          · have hw := hrec.1
            rw [htr] at hw
            simp only [walkOk]
            rw [show ((st.end_ == st.end_ &&
                !page.times.isEmpty &&
                walkOk (minTs page.times) (hd :: tl)) = true) ↔
                (st.end_ = st.end_ ∧ ¬page.times.isEmpty = true ∧
                  walkOk (minTs page.times) (hd :: tl) = true) from by
              simp [Bool.and_eq_true, and_assoc]]
            exact ⟨rfl, by simp [hpe], hw⟩
        · rw [hloop]
          constructor
          · intro hcontr; cases hcontr
          · intro hfalse; rw [hn] at hfalse; cases hfalse
        · intro hneed
          rw [hloop] at hneed ⊢
          simp only at hneed ⊢
          have htl := hrec.2.2 hneed
          have hne : (get_trades_loop rest
              ⟨st.total_count + page.times.length, minTs page.times⟩).2 ≠ [] := by
            intro hemp
            have hnf := hrec.2.1.mp hemp
            have hfin := get_trades_loop_nil_trace rest
              ⟨st.total_count + page.times.length, minTs page.times⟩ hemp
            rw [hfin] at hneed
            rw [hneed] at hnf
            cases hnf
          rw [getLast_cons_ne _ _ hne, htl]
    · have hloop : get_trades_loop (page :: rest) st = (st, []) := by
        simp [get_trades_loop, hn]
      refine ⟨?_, ?_, ?_⟩ <;> rw [hloop]
      · simp [walkOk]
      · simpa using (Bool.not_eq_true _).mp hn
      · intro hneed
        simp only at hneed
        rw [(Bool.not_eq_true _).mp hn] at hneed
        cases hneed

/-- Witness for the amended C8: on an immediately empty feed the final count
still satisfies the guard, and the single recorded request indeed received
the empty page that ended the loop. -/
theorem get_trades_paging_witness :
    need_to_fetch (get_trades_loop [] ⟨0, 100⟩).1.total_count = true
  ∧ (get_trades_loop [] ⟨0, 100⟩).2.getLast?
      = some ((get_trades_loop [] ⟨0, 100⟩).1.end_, []) :=
  ⟨by decide, (get_trades_paging [] ⟨0, 100⟩).2.2 (by decide)⟩

/-! ## C9 — a window with zero trades -/

/-- C9 counterexample: a window yielding zero trades makes `get_trades` end
in pandas' `AttributeError` (raised by `trades_df.tradeID` on the empty
frame), which is not the specification's dedicated `EmptyRangeError`. -/
theorem empty_window_attribute_error :
    get_trades [] 100 = Except.error PyError.attributeError
  ∧ PyError.attributeError ≠ PyError.emptyRangeError :=
  ⟨rfl, by decide⟩

/-- C9 amended: when the first page of the window is already empty, the
paging loop breaks gracefully, but the epilogue of `get_trades` then raises
`AttributeError` while summing the trade counts of the empty frame — it
neither returns a bar sequence nor raises a dedicated `EmptyRangeError`
(which does not exist in the source). -/
theorem empty_window_behavior (pages : List Page) (e0 : Nat)
    (he : pages = [] ∨ ∃ ps, pages = Page.mk [] :: ps) :
    get_trades pages e0 = Except.error PyError.attributeError := by
  rcases he with he | ⟨ps, he⟩ <;> subst he <;>
    simp [get_trades, get_trades_loop, need_to_fetch]

/-- Witness for the amended C9 at a feed whose first page is empty. -/
theorem empty_window_behavior_witness :
    (([Page.mk []] : List Page) = [] ∨
      ∃ ps, ([Page.mk []] : List Page) = Page.mk [] :: ps)
  ∧ get_trades [Page.mk []] 5 = Except.error PyError.attributeError :=
  ⟨Or.inr ⟨[], rfl⟩, empty_window_behavior [Page.mk []] 5 (Or.inr ⟨[], rfl⟩)⟩
